import Mathlib

/-!
Shallow embedding of the stream dispatch / provider filtering logic of
`src/screens/StreamsScreen.tsx` (`handleStreamPress`, `sections`,
`filterItems`) together with proofs about it.

External effects are modelled explicitly: `Linking.openURL` is modelled by an
oracle `ok : String → Bool` telling, for each candidate URL, whether the
platform's URL-opening facility succeeds (the promise resolves) or fails
(the promise rejects).  A run of the dispatcher is then a pure list of
`Action`s: each attempted `openUrl`, in order, possibly followed by the
internal-playback navigation `navigate`.
-/

namespace NuvioExpo

/-- Host platform, `Platform.OS` of react-native (the code only distinguishes
`ios` and `android`). -/
inductive Platform where
  | ios
  | android
deriving DecidableEq, Repr

/-- The fields of the `Stream` record that `handleStreamPress` and
`navigateToPlayer` read.  `url` is `Option String`: `none` models an absent
(`undefined`) url; JS truthiness makes `""` behave like an absent one. -/
structure Stream where
  url : Option String := none
  name : Option String := none
  title : Option String := none
deriving DecidableEq, Repr

/-- The player-related part of the user settings read by `handleStreamPress`. -/
structure AppSettings where
  useExternalPlayer : Bool
  preferredPlayer : String
deriving DecidableEq, Repr

/-- An installed addon as returned by `stremioService.getInstalledAddons()`
(the fields the screen reads: `id` and `name`). -/
structure Addon where
  id : String
  name : String
deriving DecidableEq, Repr

/-- One provider's bundle in `groupedStreams` / `episodeStreams`:
`{ addonName, streams }`. -/
structure ProviderGroupData where
  addonName : String
  streams : List Stream
deriving DecidableEq, Repr

/-- One section produced by the `sections` memo:
`{ title: addonName, addonId, data: streams }`. -/
structure StreamSection where
  title : String
  addonId : String
  data : List Stream
deriving DecidableEq, Repr

/-- An observable action of the dispatcher: an attempted `Linking.openURL`
with the given candidate string, or the internal-playback navigation
`navigateToPlayer` (recorded by the stream url it plays). -/
inductive Action where
  | openUrl (u : String)
  | navigate (u : String)
deriving DecidableEq, Repr

/-! ### `encodeURIComponent`

JS `encodeURIComponent` leaves `A–Z a–z 0–9 - _ . ! ~ * ' ( )` unchanged and
percent-encodes every other character as its UTF-8 bytes in uppercase hex. -/

/-- Characters `encodeURIComponent` leaves unescaped. -/
def isUnreservedChar (c : Char) : Bool :=
  (65 ≤ c.toNat && c.toNat ≤ 90) || (97 ≤ c.toNat && c.toNat ≤ 122) ||
  (48 ≤ c.toNat && c.toNat ≤ 57) ||
  c = '-' || c = '_' || c = '.' || c = '!' || c = '~' || c = '*' ||
  c = '\'' || c = '(' || c = ')'

/-- Uppercase hexadecimal digit for `n < 16`. -/
def hexDigit (n : Nat) : Char :=
  if n < 10 then Char.ofNat (48 + n) else Char.ofNat (55 + n)

/-- UTF-8 bytes of a Unicode code point. -/
def utf8Bytes (n : Nat) : List Nat :=
  if n < 128 then [n]
  else if n < 2048 then [192 + n / 64, 128 + n % 64]
  else if n < 65536 then [224 + n / 4096, 128 + (n / 64) % 64, 128 + n % 64]
  else [240 + n / 262144, 128 + (n / 4096) % 64, 128 + (n / 64) % 64, 128 + n % 64]

/-- `%XY` escape of one byte. -/
def percentByte (b : Nat) : List Char :=
  ['%', hexDigit (b / 16), hexDigit (b % 16)]

/-- Encoding of a single character. -/
def encodeChar (c : Char) : List Char :=
  if isUnreservedChar c then [c] else (utf8Bytes c.toNat).flatMap percentByte

/-- JS `encodeURIComponent`. -/
def encodeURIComponent (s : String) : String :=
  ⟨s.data.flatMap encodeChar⟩

/-! ### The iOS external-player scheme table and the dispatch chain -/

/-- The iOS scheme table of `handleStreamPress` (the `switch` on
`settings.preferredPlayer`): the ordered candidate URL list for a known
player, or `none` for the `default` case. -/
def iosPlayerUrls (player : String) (url : String) : Option (List String) :=
  let streamUrl := encodeURIComponent url
  match player with
  | "vlc" => some [
      "vlc://" ++ url,
      "vlc-x-callback://x-callback-url/stream?url=" ++ streamUrl,
      "vlc://" ++ streamUrl]
  | "outplayer" => some [
      "outplayer://" ++ url,
      "outplayer://" ++ streamUrl,
      "outplayer://play?url=" ++ streamUrl,
      "outplayer://stream?url=" ++ streamUrl,
      "outplayer://play/browser?url=" ++ streamUrl]
  | "infuse" => some [
      "infuse://x-callback-url/play?url=" ++ streamUrl,
      "infuse://play?url=" ++ streamUrl,
      "infuse://" ++ streamUrl]
  | "vidhub" => some [
      "vidhub://play?url=" ++ streamUrl,
      "vidhub://" ++ streamUrl]
  | _ => none

/-- The `tryNextUrl` callback chain: attempt each candidate in order; on
success stop; on failure continue; past the end of the list attempt the raw
`stream.url` once and, if that also fails, navigate to the built-in player. -/
def tryNextUrl (ok : String → Bool) (rawUrl : String) : List String → List Action
  | [] =>
      Action.openUrl rawUrl ::
        (if ok rawUrl then [] else [Action.navigate rawUrl])
  | c :: rest =>
      Action.openUrl c ::
        (if ok c then [] else tryNextUrl ok rawUrl rest)

/-- JS `String.prototype.startsWith`. -/
def jsStartsWith (s pre : String) : Bool :=
  pre.data.isPrefixOf s.data

/-- JS `url.split('?')[0]` guarded by `url.includes('?')`: the part of the
url before the first `?` (the whole url when there is none). -/
def cleanUrl (url : String) : String :=
  ⟨url.data.takeWhile (fun c => c ≠ '?')⟩

/-- The Android intent URL built from the cleaned url. -/
def intentUrl (u : String) : String :=
  "intent:" ++ u ++
    "#Intent;action=android.intent.action.VIEW;category=android.intent.category.DEFAULT;component=;type=video/*;launchFlags=0x10000000;end"

/-- `handleStreamPress`: the full dispatch, as the list of actions it
performs given the success oracle `ok`.  Mirrors the source's branch order:
nothing when `stream.url` is falsy; the iOS external branch when
`Platform.OS === 'ios' && settings.preferredPlayer !== 'internal'`; the
Android external branch when `Platform.OS === 'android' &&
settings.useExternalPlayer`; otherwise the built-in player. -/
def handleStreamPress (platform : Platform) (settings : AppSettings)
    (stream : Stream) (ok : String → Bool) : List Action :=
  match stream.url with
  | none => []
  | some u =>
    if u = "" then []
    else if platform = Platform.ios ∧ settings.preferredPlayer ≠ "internal" then
      match iosPlayerUrls settings.preferredPlayer u with
      | some externalPlayerUrls => tryNextUrl ok u externalPlayerUrls
      | none => [Action.navigate u]
    else if platform = Platform.android ∧ settings.useExternalPlayer then
      if jsStartsWith u "magnet:" then
        Action.openUrl u ::
          (if ok u then [] else [Action.navigate u])
      else
        let iUrl := intentUrl (cleanUrl u)
        Action.openUrl iUrl ::
          (if ok iUrl then []
           else Action.openUrl u ::
             (if ok u then [] else [Action.navigate u]))
    else [Action.navigate u]

/-! ### The provider sort (`sections` / `filterItems`) -/

/-- JS `installedAddons.findIndex(addon => addon.id === x)` as an `Int`
(`-1` when absent). -/
def jsFindIdx (installed : List Addon) (pid : String) : Int :=
  match installed.findIdx? (fun addon => addon.id == pid) with
  | some i => (i : Int)
  | none => -1

/-- The comparator shared by the `sections` and `filterItems` sorts:
both installed → difference of indices; installed before not-installed;
two not-installed providers compare equal. -/
def providerCompare (installed : List Addon) (a b : String) : Int :=
  let indexA := jsFindIdx installed a
  let indexB := jsFindIdx installed b
  if indexA ≠ -1 ∧ indexB ≠ -1 then indexA - indexB
  else if indexA ≠ -1 then -1
  else if indexB ≠ -1 then 1
  else 0

/-- Insert `x` into an already-sorted list, before the first element that does
not compare strictly below it (keeps the sort stable: `x`, which originally
precedes the list's elements, lands before any element tied with it). -/
def jsSortInsert (cmp : α → α → Int) (x : α) : List α → List α
  | [] => [x]
  | y :: ys => if cmp y x < 0 then y :: jsSortInsert cmp x ys else x :: y :: ys

/-- JS `Array.prototype.sort(cmp)` as a stable sort (stable since ES2019);
modelled as stable insertion sort. -/
def jsSort (cmp : α → α → Int) : List α → List α
  | [] => []
  | x :: xs => jsSortInsert cmp x (jsSort cmp xs)

/-- The `sections` memo: `Object.entries(streams)` (an association list, in
key insertion order) filtered by the selected provider, sorted by the
installed-addon comparator, and mapped to display sections. -/
def sections (selectedProvider : String) (installed : List Addon)
    (entries : List (String × ProviderGroupData)) : List StreamSection :=
  ((jsSort (fun a b => providerCompare installed a.1 b.1)
      (entries.filter (fun e =>
        if selectedProvider == "all" then true else e.1 == selectedProvider))).map
    (fun e => { title := e.2.addonName, addonId := e.1, data := e.2.streams }))

/-- The `filterItems` memo: the `All Providers` sentinel followed by the
available providers sorted by the installed-addon comparator, each resolved
to a display name (installed addon name, else the group's `addonName` when
truthy, else the raw provider id). -/
def filterItems (installed : List Addon) (availableProviders : List String)
    (streams : List (String × ProviderGroupData)) : List Addon :=
  { id := "all", name := "All Providers" } ::
  ((jsSort (providerCompare installed) availableProviders).map (fun provider =>
    let addonInfo := (streams.find? (fun e => e.1 == provider)).map Prod.snd
    let installedAddon := installed.find? (fun a => a.id == provider)
    let displayName :=
      match installedAddon with
      | some a => a.name
      | none =>
        match addonInfo with
        | some g => if g.addonName = "" then provider else g.addonName
        | none => provider
    { id := provider, name := displayName }))

end NuvioExpo

namespace NuvioExpo

/-! ### Helper lemmas about the dispatch chain -/

/-- When every open attempt fails, `tryNextUrl` attempts every candidate in
order, then the raw url, then navigates to the built-in player. -/
theorem tryNextUrl_allFail (ok : String → Bool) (raw : String)
    (hfail : ∀ c, ok c = false) (l : List String) :
    tryNextUrl ok raw l
      = l.map Action.openUrl ++ [Action.openUrl raw, Action.navigate raw] := by
  induction l with
  | nil => simp [tryNextUrl, hfail raw]
  | cons c rest ih => simp [tryNextUrl, hfail c, ih]

/-- Any url opened by `tryNextUrl` is one of the candidates or the raw url. -/
theorem openUrl_mem_tryNextUrl {ok : String → Bool} {raw c : String}
    {l : List String} (h : Action.openUrl c ∈ tryNextUrl ok raw l) :
    c ∈ l ∨ c = raw := by
  induction l with
  | nil =>
    right
    simp only [tryNextUrl, List.mem_cons] at h
    rcases h with h | h
    · exact Action.openUrl.inj h
    · split at h <;> simp at h
  | cons a rest ih =>
    simp only [tryNextUrl, List.mem_cons] at h
    rcases h with h | h
    · exact Or.inl (Action.openUrl.inj h ▸ List.mem_cons_self a rest)
    · split at h
      · simp at h
      · rcases ih h with h' | h'
        · exact Or.inl (List.mem_cons_of_mem a h')
        · exact Or.inr h'

/-- The last element of a list ending in two fixed elements. -/
theorem getLast_append_pair (l : List α) (a b : α) :
    (l ++ [a, b]).getLast? = some b := by
  induction l with
  | nil => rfl
  | cons x xs ih =>
    rw [List.cons_append, List.getLast?_cons, ih]
    rfl

end NuvioExpo

namespace NuvioExpo

/-- Claim C1: for any dispatch of a stream with a present, nonempty url in
which every `Linking.openURL` attempt rejects, the dispatcher's final action
is the internal-playback navigation: the dispatch never ends without either a
successful external open or `navigateToPlayer`. -/
theorem dispatch_allFail_ends_with_navigate
    (platform : Platform) (settings : AppSettings) (stream : Stream)
    (ok : String → Bool) (u : String)
    (hu : stream.url = some u) (hne : u ≠ "")
    (hfail : ∀ c, ok c = false) :
    (handleStreamPress platform settings stream ok).getLast?
      = some (Action.navigate u) := by
  unfold handleStreamPress
  rw [hu]
  simp only [if_neg hne]
  by_cases hios : platform = Platform.ios ∧ settings.preferredPlayer ≠ "internal"
  · rw [if_pos hios]
    cases htab : iosPlayerUrls settings.preferredPlayer u with
    | none => rfl
    | some urls =>
      simp only [tryNextUrl_allFail ok u hfail urls]
      exact getLast_append_pair _ _ _
  · rw [if_neg hios]
    by_cases hand : platform = Platform.android ∧ settings.useExternalPlayer = true
    · rw [if_pos hand]
      by_cases hmag : jsStartsWith u "magnet:" = true
      · simp [hmag, hfail u]
      · simp only [Bool.not_eq_true] at hmag
        simp [hmag, hfail u, hfail (intentUrl (cleanUrl u))]
    · rw [if_neg hand]
      rfl

/-- Witness for C1 at a concrete input. -/
theorem dispatch_allFail_ends_with_navigate_witness :
    (handleStreamPress Platform.ios ⟨false, "vlc"⟩
        ⟨some "https://e/v.mp4", none, none⟩ (fun _ => false)).getLast?
      = some (Action.navigate "https://e/v.mp4") :=
  dispatch_allFail_ends_with_navigate Platform.ios ⟨false, "vlc"⟩
    ⟨some "https://e/v.mp4", none, none⟩ (fun _ => false) "https://e/v.mp4"
    rfl (by decide) (fun _ => rfl)

/-- Claim C9: a stream whose url is absent (`undefined`) or empty is not
dispatched at all: no external attempt and no internal navigation. -/
theorem falsy_url_no_action
    (platform : Platform) (settings : AppSettings) (stream : Stream)
    (ok : String → Bool)
    (h : stream.url = none ∨ stream.url = some "") :
    handleStreamPress platform settings stream ok = [] := by
  rcases h with h | h <;> simp [handleStreamPress, h]

/-- Witness for C9 at a concrete input. -/
theorem falsy_url_no_action_witness :
    handleStreamPress Platform.android ⟨true, "vlc"⟩
        ⟨some "", none, none⟩ (fun _ => true) = [] :=
  falsy_url_no_action Platform.android ⟨true, "vlc"⟩
    ⟨some "", none, none⟩ (fun _ => true) (Or.inr rfl)

/-- Claim C4: on Android with the external-player preference, a magnet url
bypasses the intent construction: exactly one external attempt with the raw
magnet url, and on its failure the internal player is invoked. -/
theorem android_magnet_dispatch
    (p : String) (stream : Stream) (ok : String → Bool) (u : String)
    (hu : stream.url = some u) (hmag : jsStartsWith u "magnet:" = true) :
    handleStreamPress Platform.android ⟨true, p⟩ stream ok
      = Action.openUrl u :: (if ok u then [] else [Action.navigate u]) := by
  have hne : u ≠ "" := by
    rintro rfl
    exact absurd hmag (by decide)
  unfold handleStreamPress
  rw [hu]
  simp [hne, hmag]

/-- Witness for C4 at a concrete input. -/
theorem android_magnet_dispatch_witness :
    handleStreamPress Platform.android ⟨true, "internal"⟩
        ⟨some "magnet:?xt=urn:btih:abc", none, none⟩ (fun _ => false)
      = [Action.openUrl "magnet:?xt=urn:btih:abc",
         Action.navigate "magnet:?xt=urn:btih:abc"] := by
  have h := android_magnet_dispatch "internal"
    ⟨some "magnet:?xt=urn:btih:abc", none, none⟩ (fun _ => false)
    "magnet:?xt=urn:btih:abc" rfl (by decide)
  simpa using h

end NuvioExpo

namespace NuvioExpo

/-- Claim C2: on iOS with preferred player `vlc` and stream url `u`, the
ordered external candidate list is exactly
`[vlc://u, vlc-x-callback://x-callback-url/stream?url=enc(u), vlc://enc(u)]`,
attempted in that order via `tryNextUrl`; when every attempt fails the run is
those three candidates, then the raw url, then the internal navigation. -/
theorem ios_vlc_dispatch
    (b : Bool) (stream : Stream) (ok : String → Bool) (u : String)
    (hu : stream.url = some u) (hne : u ≠ "") :
    iosPlayerUrls "vlc" u = some ["vlc://" ++ u,
      "vlc-x-callback://x-callback-url/stream?url=" ++ encodeURIComponent u,
      "vlc://" ++ encodeURIComponent u]
    ∧ handleStreamPress Platform.ios ⟨b, "vlc"⟩ stream ok
        = tryNextUrl ok u ["vlc://" ++ u,
            "vlc-x-callback://x-callback-url/stream?url=" ++ encodeURIComponent u,
            "vlc://" ++ encodeURIComponent u]
    ∧ ((∀ c, ok c = false) →
        handleStreamPress Platform.ios ⟨b, "vlc"⟩ stream ok
          = [Action.openUrl ("vlc://" ++ u),
             Action.openUrl
               ("vlc-x-callback://x-callback-url/stream?url=" ++ encodeURIComponent u),
             Action.openUrl ("vlc://" ++ encodeURIComponent u),
             Action.openUrl u, Action.navigate u]) := by
  refine ⟨rfl, ?_, ?_⟩
  · unfold handleStreamPress
    rw [hu]
    simp [hne, iosPlayerUrls]
  · intro hfail
    unfold handleStreamPress
    rw [hu]
    simp [hne, iosPlayerUrls, tryNextUrl_allFail ok u hfail]

/-- Witness for C2 at a concrete input. -/
theorem ios_vlc_dispatch_witness :
    handleStreamPress Platform.ios ⟨true, "vlc"⟩
        ⟨some "https://example/video.mp4", none, none⟩ (fun _ => false)
      = [Action.openUrl "vlc://https://example/video.mp4",
         Action.openUrl
           ("vlc-x-callback://x-callback-url/stream?url="
             ++ encodeURIComponent "https://example/video.mp4"),
         Action.openUrl ("vlc://" ++ encodeURIComponent "https://example/video.mp4"),
         Action.openUrl "https://example/video.mp4",
         Action.navigate "https://example/video.mp4"] :=
  (ios_vlc_dispatch true ⟨some "https://example/video.mp4", none, none⟩
    (fun _ => false) "https://example/video.mp4" rfl (by decide)).2.2
    (fun _ => rfl)

/-- Claim C3: on iOS, for every player whose scheme table defines `N`
templates, a dispatch in which every external attempt fails performs exactly
the `N` template attempts in order, then one trailing raw-url attempt
(`N + 1` external attempts in total), then falls back to internal playback. -/
theorem ios_templates_dispatch
    (b : Bool) (p : String) (stream : Stream) (ok : String → Bool)
    (u : String) (templates : List String)
    (hu : stream.url = some u) (hne : u ≠ "")
    (htab : iosPlayerUrls p u = some templates)
    (hfail : ∀ c, ok c = false) :
    handleStreamPress Platform.ios ⟨b, p⟩ stream ok
      = templates.map Action.openUrl ++ [Action.openUrl u, Action.navigate u] := by
  have hp : p ≠ "internal" := by
    rintro rfl
    simp [iosPlayerUrls] at htab
  unfold handleStreamPress
  rw [hu]
  simp only [if_neg hne]
  rw [if_pos (⟨by simp, hp⟩ : _ ∧ _)]
  simp only [htab]
  exact tryNextUrl_allFail ok u hfail templates

/-- Witness for C3 at a concrete input (outplayer: five templates, six
external attempts). -/
theorem ios_templates_dispatch_witness :
    handleStreamPress Platform.ios ⟨false, "outplayer"⟩
        ⟨some "http://e/a.mkv", none, none⟩ (fun _ => false)
      = (["outplayer://" ++ "http://e/a.mkv",
          "outplayer://" ++ encodeURIComponent "http://e/a.mkv",
          "outplayer://play?url=" ++ encodeURIComponent "http://e/a.mkv",
          "outplayer://stream?url=" ++ encodeURIComponent "http://e/a.mkv",
          "outplayer://play/browser?url=" ++ encodeURIComponent "http://e/a.mkv"]).map
            Action.openUrl
        ++ [Action.openUrl "http://e/a.mkv", Action.navigate "http://e/a.mkv"] :=
  ios_templates_dispatch false "outplayer" ⟨some "http://e/a.mkv", none, none⟩
    (fun _ => false) "http://e/a.mkv" _ rfl (by decide) rfl (fun _ => rfl)

/-- Claim C6: selecting the internal player (preferred player `internal` on
iOS; `useExternalPlayer` false on Android), or an iOS player name with no
scheme-table entry, dispatches exactly one action: the internal-playback
navigation, with no external attempt. -/
theorem internal_pref_single_navigate
    (b : Bool) (p : String) (stream : Stream) (ok : String → Bool)
    (u : String) (hu : stream.url = some u) (hne : u ≠ "") :
    handleStreamPress Platform.ios ⟨b, "internal"⟩ stream ok = [Action.navigate u]
    ∧ handleStreamPress Platform.android ⟨false, p⟩ stream ok = [Action.navigate u]
    ∧ (iosPlayerUrls p u = none →
        handleStreamPress Platform.ios ⟨b, p⟩ stream ok = [Action.navigate u]) := by
  refine ⟨?_, ?_, ?_⟩
  · unfold handleStreamPress
    rw [hu]
    simp [hne]
  · unfold handleStreamPress
    rw [hu]
    simp [hne]
  · intro htab
    unfold handleStreamPress
    rw [hu]
    by_cases hp : p = "internal"
    · simp [hne, hp]
    · simp only [if_neg hne]
      rw [if_pos (⟨by simp, hp⟩ : _ ∧ _)]
      simp [htab]

/-- Witness for C6 at a concrete input (unknown iOS player name `mx`). -/
theorem internal_pref_single_navigate_witness :
    handleStreamPress Platform.ios ⟨true, "internal"⟩
        ⟨some "http://e/a.mp4", none, none⟩ (fun _ => true) = [Action.navigate "http://e/a.mp4"]
    ∧ handleStreamPress Platform.android ⟨false, "mx"⟩
        ⟨some "http://e/a.mp4", none, none⟩ (fun _ => true) = [Action.navigate "http://e/a.mp4"]
    ∧ handleStreamPress Platform.ios ⟨true, "mx"⟩
        ⟨some "http://e/a.mp4", none, none⟩ (fun _ => true) = [Action.navigate "http://e/a.mp4"] := by
  have h := internal_pref_single_navigate true "mx"
    ⟨some "http://e/a.mp4", none, none⟩ (fun _ => true) "http://e/a.mp4" rfl (by decide)
  exact ⟨h.1, h.2.1, h.2.2 rfl⟩

/-- Claim C10: the two halves of the player preference act on disjoint
platforms: the iOS dispatch ignores `useExternalPlayer`, the Android dispatch
ignores `preferredPlayer`; with the preference
`{useExternalPlayer: false, preferredPlayer: "vlc"}` iOS dispatches
externally (its first action is the `vlc://` attempt) while Android plays
internally. -/
theorem preference_halves_platform_disjoint
    (stream : Stream) (ok : String → Bool) (u : String)
    (hu : stream.url = some u) (hne : u ≠ "") :
    (∀ b b' p, handleStreamPress Platform.ios ⟨b, p⟩ stream ok
        = handleStreamPress Platform.ios ⟨b', p⟩ stream ok)
    ∧ (∀ b p p', handleStreamPress Platform.android ⟨b, p⟩ stream ok
        = handleStreamPress Platform.android ⟨b, p'⟩ stream ok)
    ∧ (handleStreamPress Platform.ios ⟨false, "vlc"⟩ stream ok).head?
        = some (Action.openUrl ("vlc://" ++ u))
    ∧ handleStreamPress Platform.android ⟨false, "vlc"⟩ stream ok
        = [Action.navigate u] := by
  refine ⟨?_, ?_, ?_, ?_⟩
  · intro b b' p
    unfold handleStreamPress
    rw [hu]
    by_cases hp : p = "internal" <;> simp [hne, hp]
  · intro b p p'
    unfold handleStreamPress
    rw [hu]
    simp [hne]
  · unfold handleStreamPress
    rw [hu]
    simp [hne, iosPlayerUrls, tryNextUrl]
  · unfold handleStreamPress
    rw [hu]
    simp [hne]

/-- Witness for C10 at a concrete input. -/
theorem preference_halves_platform_disjoint_witness :
    (handleStreamPress Platform.ios ⟨false, "vlc"⟩
        ⟨some "http://h/s.mp4", none, none⟩ (fun _ => false)).head?
      = some (Action.openUrl ("vlc://" ++ "http://h/s.mp4"))
    ∧ handleStreamPress Platform.android ⟨false, "vlc"⟩
        ⟨some "http://h/s.mp4", none, none⟩ (fun _ => false)
      = [Action.navigate "http://h/s.mp4"] := by
  have h := preference_halves_platform_disjoint
    ⟨some "http://h/s.mp4", none, none⟩ (fun _ => false) "http://h/s.mp4" rfl (by decide)
  exact ⟨h.2.2.1, h.2.2.2⟩

end NuvioExpo

namespace NuvioExpo

/-- A string occurs unchanged at the end of `pre ++ s`. -/
theorem data_wrap_left (pre s : String) : s.data <:+: (pre ++ s).data :=
  ⟨pre.data, [], by simp [String.data_append]⟩

/-- Claim C5, amended: every candidate the dispatcher attempts contains the
stream url unchanged (raw or percent-encoded) — except the Android intent
candidate, which is built from the url with its query string stripped. -/
theorem candidate_wraps_stream_url
    (platform : Platform) (settings : AppSettings) (stream : Stream)
    (ok : String → Bool) (u c : String)
    (hu : stream.url = some u)
    (hc : Action.openUrl c ∈ handleStreamPress platform settings stream ok) :
    u.data <:+: c.data ∨ (encodeURIComponent u).data <:+: c.data
      ∨ c = intentUrl (cleanUrl u) := by
  unfold handleStreamPress at hc
  rw [hu] at hc
  simp only at hc
  by_cases hne : u = ""
  · rw [if_pos hne] at hc
    simp at hc
  rw [if_neg hne] at hc
  split at hc
  · -- iOS external branch
    rcases htab : iosPlayerUrls settings.preferredPlayer u with _ | urls
    · rw [htab] at hc
      simp at hc
    · rw [htab] at hc
      rcases openUrl_mem_tryNextUrl hc with hmem | rfl
      · simp only [iosPlayerUrls] at htab
        split at htab
        · -- vlc: raw, callback-encoded, encoded
          rw [Option.some_inj] at htab
          subst htab
          simp only [List.mem_cons, List.not_mem_nil, or_false] at hmem
          rcases hmem with rfl | rfl | rfl
          · exact Or.inl (data_wrap_left _ u)
          · exact Or.inr (Or.inl (data_wrap_left _ _))
          · exact Or.inr (Or.inl (data_wrap_left _ _))
        · -- outplayer: raw, then four encoded forms
          rw [Option.some_inj] at htab
          subst htab
          simp only [List.mem_cons, List.not_mem_nil, or_false] at hmem
          rcases hmem with rfl | rfl | rfl | rfl | rfl
          · exact Or.inl (data_wrap_left _ u)
          · exact Or.inr (Or.inl (data_wrap_left _ _))
          · exact Or.inr (Or.inl (data_wrap_left _ _))
          · exact Or.inr (Or.inl (data_wrap_left _ _))
          · exact Or.inr (Or.inl (data_wrap_left _ _))
        · -- infuse: three encoded forms
          rw [Option.some_inj] at htab
          subst htab
          simp only [List.mem_cons, List.not_mem_nil, or_false] at hmem
          rcases hmem with rfl | rfl | rfl <;>
            exact Or.inr (Or.inl (data_wrap_left _ _))
        · -- vidhub: two encoded forms
          rw [Option.some_inj] at htab
          subst htab
          simp only [List.mem_cons, List.not_mem_nil, or_false] at hmem
          rcases hmem with rfl | rfl <;>
            exact Or.inr (Or.inl (data_wrap_left _ _))
        · exact absurd htab (by simp)
      · exact Or.inl List.infix_rfl
  · split at hc
    · -- Android external branch
      split at hc
      · -- magnet url: raw attempt only
        simp only [List.mem_cons] at hc
        rcases hc with hc | hc
        · exact Or.inl (Action.openUrl.inj hc ▸ List.infix_rfl)
        · split at hc <;> simp at hc
      · -- intent url, then raw
        simp only [List.mem_cons] at hc
        rcases hc with hc | hc
        · exact Or.inr (Or.inr (Action.openUrl.inj hc))
        · split at hc
          · simp at hc
          · simp only [List.mem_cons] at hc
            rcases hc with hc | hc
            · exact Or.inl (Action.openUrl.inj hc ▸ List.infix_rfl)
            · split at hc <;> simp at hc
    · -- internal player
      simp at hc

/-- Witness for the amended C5 at a concrete input (the first vlc candidate
contains the raw url). -/
theorem candidate_wraps_stream_url_witness :
    ("http://e/v").data <:+: ("vlc://" ++ "http://e/v").data
    ∨ (encodeURIComponent "http://e/v").data <:+: ("vlc://" ++ "http://e/v").data
    ∨ "vlc://" ++ "http://e/v" = intentUrl (cleanUrl "http://e/v") :=
  candidate_wraps_stream_url Platform.ios ⟨false, "vlc"⟩
    ⟨some "http://e/v", none, none⟩ (fun _ => false) "http://e/v"
    ("vlc://" ++ "http://e/v") rfl (by decide)

end NuvioExpo

set_option maxRecDepth 100000

namespace NuvioExpo

/-- Claim C5 counterexample: on Android with the external-player preference,
the dispatched intent candidate for `https://h/video.mp4?token=1` contains
neither the raw url nor its percent-encoding — the query string has been
stripped — so the original url is not recoverable from that candidate. -/
theorem android_intent_candidate_not_recoverable :
    Action.openUrl (intentUrl (cleanUrl "https://h/video.mp4?token=1"))
      ∈ handleStreamPress Platform.android ⟨true, "internal"⟩
          ⟨some "https://h/video.mp4?token=1", none, none⟩ (fun _ => false)
    ∧ ¬ ("https://h/video.mp4?token=1").data
          <:+: (intentUrl (cleanUrl "https://h/video.mp4?token=1")).data
    ∧ ¬ ((encodeURIComponent "https://h/video.mp4?token=1").data
          <:+: (intentUrl (cleanUrl "https://h/video.mp4?token=1")).data) :=
  ⟨by decide, by decide, by decide⟩

end NuvioExpo

namespace NuvioExpo

/-! ### Permutation and ordering facts about the provider sort -/

/-- Inserting permutes: the result holds the new element and the old list. -/
theorem jsSortInsert_perm (cmp : α → α → Int) (x : α) (l : List α) :
    List.Perm (jsSortInsert cmp x l) (x :: l) := by
  induction l with
  | nil => exact List.Perm.refl _
  | cons y ys ih =>
    simp only [jsSortInsert]
    split
    · exact (ih.cons y).trans (List.Perm.swap x y ys)
    · exact List.Perm.refl _

/-- The sort is a permutation of its input. -/
theorem jsSort_perm (cmp : α → α → Int) (l : List α) :
    List.Perm (jsSort cmp l) l := by
  induction l with
  | nil => exact List.Perm.refl _
  | cons x xs ih =>
    exact (jsSortInsert_perm cmp x (jsSort cmp xs)).trans (ih.cons x)

/-- Membership is preserved by the sort. -/
theorem mem_jsSort {cmp : α → α → Int} {l : List α} {a : α} :
    a ∈ jsSort cmp l ↔ a ∈ l :=
  (jsSort_perm cmp l).mem_iff

/-- Comparator value when both providers are installed. -/
theorem providerCompare_both_installed {installed : List Addon} {a b : String}
    (ha : jsFindIdx installed a ≠ -1) (hb : jsFindIdx installed b ≠ -1) :
    providerCompare installed a b = jsFindIdx installed a - jsFindIdx installed b := by
  simp [providerCompare, ha, hb]

/-- Comparator value when only the first provider is installed. -/
theorem providerCompare_installed_absent {installed : List Addon} {a b : String}
    (ha : jsFindIdx installed a ≠ -1) (hb : jsFindIdx installed b = -1) :
    providerCompare installed a b = -1 := by
  simp [providerCompare, ha, hb]

/-- Comparator value when only the second provider is installed. -/
theorem providerCompare_absent_installed {installed : List Addon} {a b : String}
    (ha : jsFindIdx installed a = -1) (hb : jsFindIdx installed b ≠ -1) :
    providerCompare installed a b = 1 := by
  simp [providerCompare, ha, hb]

/-- Comparator value when neither provider is installed. -/
theorem providerCompare_absent_absent {installed : List Addon} {a b : String}
    (ha : jsFindIdx installed a = -1) (hb : jsFindIdx installed b = -1) :
    providerCompare installed a b = 0 := by
  simp [providerCompare, ha, hb]

/-- Insertion commutes with a tail that never compares below the element. -/
theorem jsSortInsert_append_of_ge (cmp : α → α → Int) (x : α) (q : List α)
    (hq : ∀ y ∈ q, ¬ cmp y x < 0) :
    ∀ p : List α, jsSortInsert cmp x (p ++ q) = jsSortInsert cmp x p ++ q := by
  intro p
  induction p with
  | nil =>
    cases q with
    | nil => rfl
    | cons y ys => simp [jsSortInsert, hq y (List.mem_cons_self y ys)]
  | cons z p' ih =>
    simp only [List.cons_append, jsSortInsert]
    by_cases h : cmp z x < 0 <;> simp [h, ih]

/-- An element above a whole prefix and not above the tail is inserted
exactly at the seam. -/
theorem jsSortInsert_append_of_lt (cmp : α → α → Int) (x : α) (q : List α)
    (hq : ∀ y ∈ q, ¬ cmp y x < 0) :
    ∀ p : List α, (∀ y ∈ p, cmp y x < 0) →
      jsSortInsert cmp x (p ++ q) = p ++ x :: q := by
  intro p
  induction p with
  | nil =>
    intro _
    cases q with
    | nil => rfl
    | cons y ys => simp [jsSortInsert, hq y (List.mem_cons_self y ys)]
  | cons z p' ih =>
    intro hp
    simp only [List.cons_append, jsSortInsert]
    simp [hp z (List.mem_cons_self z p'),
      ih (fun y hy => hp y (List.mem_cons_of_mem z hy))]

/-- The provider sort splits: installed providers (themselves sorted) come
first, the not-installed ones follow in their original encounter order. -/
theorem jsSort_providerCompare_decomp {α : Type} (installed : List Addon)
    (key : α → String) (l : List α) :
    jsSort (fun a b => providerCompare installed (key a) (key b)) l
      = jsSort (fun a b => providerCompare installed (key a) (key b))
          (l.filter (fun a => decide (jsFindIdx installed (key a) ≠ -1)))
        ++ l.filter (fun a => decide (jsFindIdx installed (key a) = -1)) := by
  induction l with
  | nil => rfl
  | cons x xs ih =>
    by_cases hx : jsFindIdx installed (key x) = -1
    · simp only [jsSort, ih]
      rw [jsSortInsert_append_of_lt _ x _ ?_ _ ?_]
      · simp [List.filter_cons, hx, jsSort]
      · intro y hy
        have hy' := (List.mem_filter.mp hy).2
        rw [decide_eq_true_eq] at hy'
        rw [providerCompare_absent_absent hy' hx]
        omega
      · intro y hy
        have hy' := (List.mem_filter.mp (mem_jsSort.mp hy)).2
        rw [decide_eq_true_eq] at hy'
        rw [providerCompare_installed_absent hy' hx]
        omega
    · simp only [jsSort, ih]
      rw [jsSortInsert_append_of_ge _ x _ ?_ _]
      · simp [List.filter_cons, hx, jsSort]
      · intro y hy
        have hy' := (List.mem_filter.mp hy).2
        rw [decide_eq_true_eq] at hy'
        rw [providerCompare_absent_installed hy' hx]
        omega

/-- Inserting an installed provider into a sorted list of installed
providers keeps it sorted by installed index. -/
theorem pairwise_jsSortInsert_idx {α : Type} {installed : List Addon}
    {key : α → String} (x : α) (hx : jsFindIdx installed (key x) ≠ -1) :
    ∀ l : List α, (∀ y ∈ l, jsFindIdx installed (key y) ≠ -1) →
      l.Pairwise (fun a b => jsFindIdx installed (key a) ≤ jsFindIdx installed (key b)) →
      (jsSortInsert (fun a b => providerCompare installed (key a) (key b)) x l).Pairwise
        (fun a b => jsFindIdx installed (key a) ≤ jsFindIdx installed (key b)) := by
  intro l
  induction l with
  | nil =>
    intro _ _
    simp [jsSortInsert]
  | cons y ys ih =>
    intro hl hp
    rw [List.pairwise_cons] at hp
    obtain ⟨hy, hys⟩ := hp
    have hypres : jsFindIdx installed (key y) ≠ -1 := hl y (List.mem_cons_self y ys)
    simp only [jsSortInsert]
    by_cases h : providerCompare installed (key y) (key x) < 0
    · rw [if_pos h, List.pairwise_cons]
      refine ⟨?_, ih (fun z hz => hl z (List.mem_cons_of_mem y hz)) hys⟩
      intro z hz
      rcases List.mem_cons.mp ((jsSortInsert_perm _ x ys).mem_iff.mp hz) with rfl | hz'
      · rw [providerCompare_both_installed hypres hx] at h
        omega
      · exact hy z hz'
    · rw [if_neg h, List.pairwise_cons]
      have hxy : jsFindIdx installed (key x) ≤ jsFindIdx installed (key y) := by
        rw [providerCompare_both_installed hypres hx] at h
        omega
      refine ⟨?_, List.pairwise_cons.mpr ⟨hy, hys⟩⟩
      intro z hz
      rcases List.mem_cons.mp hz with rfl | hz'
      · exact hxy
      · exact le_trans hxy (hy z hz')

/-- Sorting a list of installed providers yields a list sorted by installed
index. -/
theorem pairwise_jsSort_installed {α : Type} {installed : List Addon}
    {key : α → String} :
    ∀ l : List α, (∀ a ∈ l, jsFindIdx installed (key a) ≠ -1) →
      (jsSort (fun a b => providerCompare installed (key a) (key b)) l).Pairwise
        (fun a b => jsFindIdx installed (key a) ≤ jsFindIdx installed (key b)) := by
  intro l
  induction l with
  | nil =>
    intro _
    simp [jsSort]
  | cons x xs ih =>
    intro hl
    simp only [jsSort]
    exact pairwise_jsSortInsert_idx x (hl x (List.mem_cons_self x xs)) _
      (fun y hy => hl y (List.mem_cons_of_mem x (mem_jsSort.mp hy)))
      (ih (fun a ha => hl a (List.mem_cons_of_mem x ha)))

end NuvioExpo

namespace NuvioExpo

/-- At most one association-list entry has a given key when keys are
distinct. -/
theorem length_filter_key_le_one (tok : String) :
    ∀ l : List (String × ProviderGroupData), (l.map Prod.fst).Nodup →
      (l.filter (fun e => e.1 == tok)).length ≤ 1 := by
  intro l
  induction l with
  | nil =>
    intro _
    simp
  | cons e l' ih =>
    intro hnd
    rw [List.map_cons, List.nodup_cons] at hnd
    obtain ⟨hnotin, hnd'⟩ := hnd
    rw [List.filter_cons]
    by_cases he : (e.1 == tok) = true
    · rw [if_pos he]
      have hnil : l'.filter (fun e => e.1 == tok) = [] := by
        rw [List.filter_eq_nil_iff]
        intro a ha hpa
        apply hnotin
        rw [beq_iff_eq] at he hpa
        rw [he, ← hpa]
        exact List.mem_map.mpr ⟨a, ha, rfl⟩
      simp [hnil]
    · rw [if_neg he]
      exact ih hnd'

/-- Claim C8: both provider sorts (the `filterItems` sort of provider ids and
the `sections` sort of provider entries) place installed providers first,
ordered by their index in the installed-addon list, and place every
not-installed provider after them in their original encounter order. -/
theorem provider_sort_ordering (installed : List Addon)
    (availableProviders : List String)
    (entries : List (String × ProviderGroupData)) :
    (∃ p, jsSort (providerCompare installed) availableProviders
          = p ++ availableProviders.filter (fun a => decide (jsFindIdx installed a = -1))
        ∧ List.Perm p (availableProviders.filter (fun a => decide (jsFindIdx installed a ≠ -1)))
        ∧ p.Pairwise (fun a b => jsFindIdx installed a ≤ jsFindIdx installed b))
    ∧ (∃ q, jsSort (fun a b => providerCompare installed a.1 b.1) entries
          = q ++ entries.filter (fun e => decide (jsFindIdx installed e.1 = -1))
        ∧ List.Perm q (entries.filter (fun e => decide (jsFindIdx installed e.1 ≠ -1)))
        ∧ q.Pairwise (fun a b => jsFindIdx installed a.1 ≤ jsFindIdx installed b.1)) := by
  constructor
  · refine ⟨jsSort (providerCompare installed)
      (availableProviders.filter (fun a => decide (jsFindIdx installed a ≠ -1))), ?_, ?_, ?_⟩
    · exact jsSort_providerCompare_decomp installed (fun s => s) availableProviders
    · exact jsSort_perm _ _
    · refine pairwise_jsSort_installed _ ?_
      intro a ha
      have := (List.mem_filter.mp ha).2
      rwa [decide_eq_true_eq] at this
  · refine ⟨jsSort (fun a b => providerCompare installed a.1 b.1)
      (entries.filter (fun e => decide (jsFindIdx installed e.1 ≠ -1))), ?_, ?_, ?_⟩
    · exact jsSort_providerCompare_decomp installed Prod.fst entries
    · exact jsSort_perm _ _
    · refine pairwise_jsSort_installed _ ?_
      intro a ha
      have := (List.mem_filter.mp ha).2
      rwa [decide_eq_true_eq] at this

/-- Claim C7: with the `all` token the produced sections carry exactly the
stream entries of the aggregated mapping; with a concrete token every
produced section belongs to that provider, and (keys being unique, as they
are for a JS object) at most one section is produced. -/
theorem sections_selector (installed : List Addon) (tok : String)
    (entries : List (String × ProviderGroupData)) :
    (∀ s : Stream,
      (∃ sec ∈ sections "all" installed entries, s ∈ sec.data)
        ↔ ∃ e ∈ entries, s ∈ e.2.streams)
    ∧ (tok ≠ "all" → ∀ sec ∈ sections tok installed entries, sec.addonId = tok)
    ∧ (tok ≠ "all" → (entries.map Prod.fst).Nodup →
        (sections tok installed entries).length ≤ 1) := by
  refine ⟨?_, ?_, ?_⟩
  · intro s
    constructor
    · rintro ⟨sec, hsec, hs⟩
      simp only [sections] at hsec
      rcases List.mem_map.mp hsec with ⟨e, he, rfl⟩
      exact ⟨e, (List.mem_filter.mp (mem_jsSort.mp he)).1, hs⟩
    · rintro ⟨e, he, hs⟩
      refine ⟨{ title := e.2.addonName, addonId := e.1, data := e.2.streams }, ?_, hs⟩
      simp only [sections]
      apply List.mem_map.mpr
      refine ⟨e, ?_, rfl⟩
      apply mem_jsSort.mpr
      exact List.mem_filter.mpr ⟨he, by simp⟩
  · intro htok sec hsec
    simp only [sections] at hsec
    rcases List.mem_map.mp hsec with ⟨e, he, rfl⟩
    have he' := (List.mem_filter.mp (mem_jsSort.mp he)).2
    have hba : (tok == "all") = false := beq_eq_false_iff_ne.mpr htok
    rw [hba] at he'
    simp only [Bool.false_eq_true, if_false, beq_iff_eq] at he'
    exact he'
  · intro htok hnodup
    simp only [sections, List.length_map]
    rw [(jsSort_perm _ _).length_eq]
    have hba : (tok == "all") = false := beq_eq_false_iff_ne.mpr htok
    simp only [hba, Bool.false_eq_true, if_false]
    exact length_filter_key_le_one tok entries hnodup

/-- Witness for C7 at a concrete input. -/
theorem sections_selector_witness :
    (sections "p1" [] [("p1", ⟨"P1", []⟩), ("p2", ⟨"P2", []⟩)]).length ≤ 1 :=
  (sections_selector [] "p1" [("p1", ⟨"P1", []⟩), ("p2", ⟨"P2", []⟩)]).2.2
    (by decide) (by decide)

end NuvioExpo
